import Mathlib

/-!
Verification of the mysticVM toolchain: a shallow embedding of the
instruction set, the two-pass assembler (src/assembler/assembler.rs) and the
execution engine (src/vm/machine.rs), together with theorems settling the
specification claims.  Machine integers are modelled as `Nat` with explicit
`% 2^w` reductions where the Rust code performs fixed-width arithmetic
(release-mode wrapping semantics: `+`/`-`/`*` wrap modulo 2^w, the shift
amount of `<<` is masked by the bit width).  Rust panics (division by zero,
`unwrap` on an empty memory map, out-of-bounds indexing, the explicit
`panic!()` arms of the assembler patch pass) are modelled as explicit error
outcomes of the corresponding step functions.
-/

namespace MysticVM

/-! ## The instruction set (src/vm/instruction.rs) -/

/-- Closed instruction variant type, exactly the arms of `enum Instruction`.
Register operands are register indices, byte operands are 8-bit literals;
both are `Nat` values below 256 as produced by the assembler. -/
inductive Instruction where
  | load (reg val : Nat)
  | add (d a b : Nat)
  | sub (d a b : Nat)
  | mul (d a b : Nat)
  | div (d a b : Nat)
  | cmp (d a b : Nat)
  | spush (h l v : Nat)
  | scopy (h l d : Nat)
  | spop (h l d : Nat)
  | srep (h l v : Nat)
  | req (a b : Nat)
  | eq (r : Nat) (val : Nat)
  | jump16 (hi lo : Nat)
  | rjump16 (h l : Nat)
  | halt
deriving DecidableEq

/-! ## The execution engine (src/vm/machine.rs) -/

/-- Pointwise update of a `Nat`-indexed cell array. -/
def upd (f : Nat → Nat) (i v : Nat) : Nat → Nat :=
  fun j => if j = i then v else f j

/-- The machine state of `struct VM`: the 65536-byte working store (`stack`),
the free-space list (`stack_memory_map`, a list of `(start, length)` runs),
the 16 registers, the program and the program counter. -/
structure VMState where
  stack : Nat → Nat
  memMap : List (Nat × Nat)
  registers : Nat → Nat
  program : List Instruction
  pc : Nat

/-- Reasons a step can abort: the Rust panics of `run_once`.
Division by a zero register (`/` panics), allocation from an empty memory map
(`.get_mut(0).unwrap()` panics), and an out-of-range working-store index
(slice indexing panics). -/
inductive Fault where
  | divisionByZero
  | stackExhausted
  | indexOutOfBounds
deriving DecidableEq

/-- Outcome of one `run_once` call: `running` when it returns `true`,
`stopped` when it returns `false` (pc past the program, or `Halt`),
`faulted` when it panics; each carries the machine state afterwards
(a panic leaves the state as it was when the panic fired). -/
inductive StepResult where
  | running (s : VMState)
  | stopped (s : VMState)
  | faulted (f : Fault) (s : VMState)

/-- The state carried by a step outcome. -/
def resultState : StepResult → VMState
  | .running s => s
  | .stopped s => s
  | .faulted _ s => s

/-- The working-store address computed by `SCopy`/`SPop`/`SRep`:
the Rust source reads `(registers[h] as usize) << 8 + registers[l] as usize`,
which by operator precedence is `hi << (8 + lo)` on a 64-bit `usize`
(shift amount masked by 64, result reduced mod 2^64) — not `(hi << 8) | lo`. -/
def addrCode (hi lo : Nat) : Nat :=
  (hi <<< ((8 + lo) % 64)) % (2 ^ 64)

/-- The program counter computed by `Jump16`/`RJump16`: the Rust source reads
`byte1 << 8 + byte2` on `u8`, i.e. `hi << (8 + lo)` with the sum wrapping
mod 256, the shift amount masked by 8, and the result reduced mod 256. -/
def jumpAddrCode (hi lo : Nat) : Nat :=
  (hi <<< (((8 + lo) % 256) % 8)) % 256

/-- One call of `VM::run_once`. -/
def step (s : VMState) : StepResult :=
  match s.program.get? s.pc with
  | none => .stopped s
  | some instr =>
    match instr with
    | .load r v =>
        .running { s with registers := upd s.registers r v, pc := s.pc + 1 }
    | .add d a b =>
        .running { s with
          registers := upd s.registers d ((s.registers a + s.registers b) % 256),
          pc := s.pc + 1 }
    | .sub d a b =>
        .running { s with
          registers := upd s.registers d ((s.registers a + 256 - s.registers b) % 256),
          pc := s.pc + 1 }
    | .mul d a b =>
        .running { s with
          registers := upd s.registers d ((s.registers a * s.registers b) % 256),
          pc := s.pc + 1 }
    | .div d a b =>
        if s.registers b = 0 then
          .faulted .divisionByZero s
        else
          .running { s with
            registers := upd s.registers d (s.registers a / s.registers b),
            pc := s.pc + 1 }
    | .cmp d a b =>
        let va := s.registers a
        let vb := s.registers b
        .running { s with
          registers := upd s.registers d (if va < vb then 0 else if va = vb then 1 else 2),
          pc := s.pc + 1 }
    | .spush h l v =>
        match s.memMap with
        | [] => .faulted .stackExhausted s
        | (start, len) :: rest =>
          if start < 65536 then
            .running { s with
              stack := upd s.stack start (s.registers v),
              registers := upd (upd s.registers h ((start >>> 8) % 256)) l (start % 256),
              memMap := if 1 < len then (start + 1, len - 1) :: rest else rest,
              pc := s.pc + 1 }
          else
            .faulted .indexOutOfBounds s
    | .scopy h l d =>
        let address := addrCode (s.registers h) (s.registers l)
        if address < 65536 then
          .running { s with
            registers := upd s.registers d (s.stack address),
            pc := s.pc + 1 }
        else
          .faulted .indexOutOfBounds s
    | .spop h l d =>
        let address := addrCode (s.registers h) (s.registers l)
        if address < 65536 then
          .running { s with
            registers := upd s.registers d (s.stack address),
            memMap := s.memMap ++ [(address, 1)],
            pc := s.pc + 1 }
        else
          .faulted .indexOutOfBounds s
    | .srep h l v =>
        let address := addrCode (s.registers h) (s.registers l)
        if address < 65536 then
          .running { s with
            stack := upd s.stack address (s.registers v),
            pc := s.pc + 1 }
        else
          .faulted .indexOutOfBounds s
    | .req a b =>
        .running { s with
          pc := if s.registers a ≠ s.registers b then s.pc + 2 else s.pc + 1 }
    | .eq r v =>
        .running { s with
          pc := if s.registers r ≠ v then s.pc + 2 else s.pc + 1 }
    | .jump16 b1 b2 =>
        .running { s with pc := jumpAddrCode b1 b2 + 1 }
    | .rjump16 r1 r2 =>
        .running { s with pc := jumpAddrCode (s.registers r1) (s.registers r2) + 1 }
    | .halt => .stopped s

/-- `VM::new`: zeroed store and registers, pc 0, one free run covering the
whole store. -/
def initialState (program : List Instruction) : VMState :=
  { stack := fun _ => 0
    memMap := [(0, 65536)]
    registers := fun _ => 0
    program := program
    pc := 0 }

/-! ## The two-pass assembler (src/assembler/assembler.rs) -/

/-- The assembler error type, exactly `enum AssemblerError`
(the `ParseIntError` payload is not modelled). -/
inductive AssemblerError where
  | parseIntError
  | missingArgument
  | wrongArgument
  | unknownInstruction
  | labelNotFound
deriving DecidableEq

/-- Operand kinds, exactly `enum Argument`. -/
inductive Argument where
  | byte (v : Nat)
  | register (v : Nat)
deriving DecidableEq

/-- A deferred label reference `(label name, byte selector, instruction
index, operand slot)` as pushed onto `used_labels`. -/
abbrev Ref := String × Nat × Nat × Nat

/-- Split a character list at every occurrence of `sep`, keeping empty
pieces, as Rust's `str::split` does. -/
def splitOnChar (sep : Char) : List Char → List Char → List (List Char)
  | [], cur => [cur.reverse]
  | c :: rest, cur =>
    if c = sep then cur.reverse :: splitOnChar sep rest []
    else splitOnChar sep rest (c :: cur)

/-- Rust `line.split(" ")`: split on single spaces, keeping empty fields. -/
def splitSpaces (s : String) : List String :=
  (splitOnChar ' ' s.data []).map (fun cs => ⟨cs⟩)

/-- Rust `source.lines()`: split on newline, drop a final empty piece
produced by a trailing newline, and strip a trailing carriage return from
each line. -/
def rustLines (s : String) : List String :=
  if s.data = [] then []
  else
    let parts := splitOnChar '\x0a' s.data []
    let parts := if parts.getLast? = some [] then parts.dropLast else parts
    parts.map (fun cs => ⟨if cs.getLast? = some '\x0d' then cs.dropLast else cs⟩)

/-- Whether the first character of `s` is `c` (Rust `starts_with` with a
one-character pattern). -/
def strHeadIs (s : String) (c : Char) : Bool :=
  s.data.head? = some c

/-- Whether the last character of `s` is `c` (Rust `ends_with` with a
one-character pattern). -/
def strLastIs (s : String) (c : Char) : Bool :=
  s.data.getLast? = some c

/-- Rust `&text[n..text.len()]` for ASCII input: drop the first `n`
characters. -/
def strDrop (s : String) (n : Nat) : String :=
  ⟨s.data.drop n⟩

/-- Rust `&text[1..(text.len() - 1)]` for ASCII input: drop the first and
the last character. -/
def strInner (s : String) : String :=
  ⟨(s.data.drop 1).dropLast⟩

/-- Numeric value of one ASCII digit/letter, as `char::to_digit` uses it. -/
def digitVal (c : Char) : Option Nat :=
  if '0' ≤ c ∧ c ≤ '9' then some (c.toNat - 48)
  else if 'a' ≤ c ∧ c ≤ 'z' then some (c.toNat - 87)
  else if 'A' ≤ c ∧ c ≤ 'Z' then some (c.toNat - 55)
  else none

/-- Accumulate digits in the given radix, failing on an invalid digit or
when the value leaves the `u8` range. -/
def parseDigits (radix : Nat) : List Char → Nat → Option Nat
  | [], acc => some acc
  | c :: rest, acc =>
    match digitVal c with
    | some d =>
      if d < radix then
        if acc * radix + d ≤ 255 then parseDigits radix rest (acc * radix + d)
        else none
      else none
    | none => none

/-- Rust `u8::from_str_radix`: an optional leading `+`, then at least one
digit valid in the radix; the value must fit in a `u8`. -/
def fromStrRadixU8 (s : String) (radix : Nat) : Option Nat :=
  let cs := s.data
  let cs := if cs.head? = some '+' then cs.tail else cs
  if cs = [] then none else parseDigits radix cs 0

/-- `get_value`: resolve one operand token.  Mirrors the source's branch
order (`NEXT0`, `NEXT1`, `0x`, `0b`, `0d`, `r`, `$`, otherwise
`WrongArgument`; an exhausted token stream is `MissingArgument`).  The
`Split` iterator and the mutable `used_labels` vector are passed and
returned explicitly. -/
def get_value (parts : List String) (instruction arg_number : Nat)
    (used_labels : List Ref) :
    Except AssemblerError (Argument × List String × List Ref) :=
  match parts with
  | [] => .error .missingArgument
  | text :: rest =>
    if text = "NEXT0" then
      -- `((address << 8) & 0xFF) as u8` with `address = instruction + 1`
      .ok (.byte (((instruction + 1) <<< 8) % 256), rest, used_labels)
    else if text = "NEXT1" then
      .ok (.byte ((instruction + 1) % 256), rest, used_labels)
    else if strHeadIs text '0' ∧ (strDrop text 1).data.head? = some 'x' then
      match fromStrRadixU8 (strDrop text 2) 16 with
      | some result => .ok (.byte result, rest, used_labels)
      | none => .error .parseIntError
    else if strHeadIs text '0' ∧ (strDrop text 1).data.head? = some 'b' then
      match fromStrRadixU8 (strDrop text 2) 2 with
      | some result => .ok (.byte result, rest, used_labels)
      | none => .error .parseIntError
    else if strHeadIs text '0' ∧ (strDrop text 1).data.head? = some 'd' then
      match fromStrRadixU8 (strDrop text 2) 10 with
      | some result => .ok (.byte result, rest, used_labels)
      | none => .error .parseIntError
    else if strHeadIs text 'r' then
      match fromStrRadixU8 (strDrop text 1) 16 with
      | some result => .ok (.register result, rest, used_labels)
      | none => .error .parseIntError
    else if strHeadIs text '$' then
      if strLastIs text '0' then
        .ok (.byte 0, rest, used_labels ++ [(strInner text, 0, instruction, arg_number)])
      else if strLastIs text '1' then
        .ok (.byte 0, rest, used_labels ++ [(strInner text, 1, instruction, arg_number)])
      else
        .error .wrongArgument
    else
      .error .wrongArgument

/-- Fetch one operand and require it to be a register
(`if let Argument::Register(..)`; a byte there is `WrongArgument`). -/
def getRegArg (parts : List String) (instruction arg_number : Nat)
    (used : List Ref) : Except AssemblerError (Nat × List String × List Ref) :=
  match get_value parts instruction arg_number used with
  | .ok (.register r, p, u) => .ok (r, p, u)
  | .ok (.byte _, _, _) => .error .wrongArgument
  | .error e => .error e

/-- Fetch one operand and require it to be a byte. -/
def getByteArg (parts : List String) (instruction arg_number : Nat)
    (used : List Ref) : Except AssemblerError (Nat × List String × List Ref) :=
  match get_value parts instruction arg_number used with
  | .ok (.byte v, p, u) => .ok (v, p, u)
  | .ok (.register _, _, _) => .error .wrongArgument
  | .error e => .error e

/-- Three register operands in a row, building `mk a b c` — the shape shared
by `ADD`/`SUB`/`MUL`/`DIV`/`CMP`/`SPUSH`/`SCOPY`/`SPOP`/`SREP`. -/
def threeRegs (parts : List String) (instruction : Nat) (used : List Ref)
    (mk : Nat → Nat → Nat → Instruction) :
    Except AssemblerError (Instruction × List Ref) := do
  let (a, p1, u1) ← getRegArg parts instruction 0 used
  let (b, p2, u2) ← getRegArg p1 instruction 1 u1
  let (c, _, u3) ← getRegArg p2 instruction 2 u2
  pure (mk a b c, u3)

/-- Dispatch on the mnemonic and emit one instruction, exactly the big
`match part1` of `assemble`.  Note the `CMP` arm of the source pushes
`Instruction::Add`, not `Instruction::Cmp`. -/
def emitLine (part1 : String) (parts : List String) (instruction : Nat)
    (used : List Ref) : Except AssemblerError (Instruction × List Ref) :=
  match part1 with
  | "LOAD" => do
    let (reg, p1, u1) ← getRegArg parts instruction 0 used
    let (value, _, u2) ← getByteArg p1 instruction 1 u1
    pure (.load reg value, u2)
  | "ADD" => threeRegs parts instruction used .add
  | "SUB" => threeRegs parts instruction used .sub
  | "MUL" => threeRegs parts instruction used .mul
  | "DIV" => threeRegs parts instruction used .div
  | "CMP" => threeRegs parts instruction used .add
  | "SPUSH" => threeRegs parts instruction used .spush
  | "SCOPY" => threeRegs parts instruction used .scopy
  | "SPOP" => threeRegs parts instruction used .spop
  | "SREP" => threeRegs parts instruction used .srep
  | "REQ" => do
    let (a, p1, u1) ← getRegArg parts instruction 0 used
    let (b, _, u2) ← getRegArg p1 instruction 1 u1
    pure (.req a b, u2)
  | "EQ" => do
    let (a, p1, u1) ← getRegArg parts instruction 0 used
    let (value, _, u2) ← getByteArg p1 instruction 1 u1
    pure (.eq a value, u2)
  | "JUMP16" => do
    let (a1, p1, u1) ← getByteArg parts instruction 0 used
    let (a2, _, u2) ← getByteArg p1 instruction 1 u1
    pure (.jump16 a1 a2, u2)
  | "RJUMP16" => do
    let (r1, p1, u1) ← getRegArg parts instruction 0 used
    let (r2, _, u2) ← getRegArg p1 instruction 1 u1
    pure (.rjump16 r1 r2, u2)
  | "HALT" => pure (.halt, used)
  | _ => .error .unknownInstruction

/-- Process one source line of pass 1: tokenize on spaces, record a leading
`$name` token in the label table (`HashMap::insert`, modelled by consing
onto an association list, so the newest entry shadows older ones), advance
to the next token when one follows the label (otherwise the `$name` token
itself reaches the mnemonic match and yields `UnknownInstruction`), then
emit the instruction. -/
def assembleLine (line : String) (instruction : Nat)
    (labels : List (String × Nat)) (used : List Ref) :
    Except AssemblerError (Instruction × List (String × Nat) × List Ref) :=
  let parts := splitSpaces line
  let tok := parts.headD ""
  let rest := parts.tail
  if strHeadIs tok '$' then
    let labels2 := (strDrop tok 1, instruction) :: labels
    match rest with
    | p2 :: r2 =>
      match emitLine p2 r2 instruction used with
      | .ok (ins, used2) => .ok (ins, labels2, used2)
      | .error e => .error e
    | [] =>
      match emitLine tok [] instruction used with
      | .ok (ins, used2) => .ok (ins, labels2, used2)
      | .error e => .error e
  else
    match emitLine tok rest instruction used with
    | .ok (ins, used2) => .ok (ins, labels, used2)
    | .error e => .error e

/-- Pass 1 over all lines: the `instruction` counter advances by one per
line, each successful line appends exactly one instruction. -/
def pass1 : List String → Nat → List Instruction → List (String × Nat) →
    List Ref → Except AssemblerError (List Instruction × List (String × Nat) × List Ref)
  | [], _, program, labels, used => .ok (program, labels, used)
  | line :: rest, instruction, program, labels, used =>
    match assembleLine line instruction labels used with
    | .error e => .error e
    | .ok (ins, labels2, used2) =>
      pass1 rest (instruction + 1) (program ++ [ins]) labels2 used2

/-- `HashMap::get` on the cons-modelled label table: the most recently
inserted binding for a name wins. -/
def labelGet : List (String × Nat) → String → Option Nat
  | [], _ => none
  | (n, i) :: rest, name => if n == name then some i else labelGet rest name

/-- Overwrite the recorded operand slot of one emitted instruction, exactly
the `match instruction` of the patch pass: only `Load`'s value slot,
`REq`'s *second register* slot and both `Jump16` slots are patchable; every
other arm — including `Eq`'s value slot — is `panic!()`, modelled as
`none`. -/
def patchInstr (ins : Instruction) (arg addr : Nat) : Option Instruction :=
  match ins with
  | .load r _ => if arg = 1 then some (.load r addr) else none
  | .req a _ => if arg = 1 then some (.req a addr) else none
  | .jump16 a0 a1 =>
    if arg = 0 then some (.jump16 addr a1)
    else if arg = 1 then some (.jump16 a0 addr)
    else none
  | _ => none

/-- Result of `assemble`: `ok`, an `Err` return, or a `panic!()` reached in
the patch pass. -/
inductive AsmResult where
  | ok (program : List Instruction)
  | err (e : AssemblerError)
  | panicked
deriving DecidableEq

/-- Pass 2: for each deferred reference in push order, look the label up
(missing → `LabelNotFound`), compute the requested byte — note the high
byte is the source's `(ptr << 8) & 0xFF`, which is always 0 — and patch the
instruction at the recorded index when that index is in range
(`program.get_mut`); a non-patchable slot panics. -/
def pass2 : List Ref → List (String × Nat) → List Instruction → AsmResult
  | [], _, program => .ok program
  | (label, b, i, arg) :: rest, labels, program =>
    match labelGet labels label with
    | none => .err .labelNotFound
    | some ptr =>
      match (match b with
             | 0 => some ((ptr <<< 8) % 256)
             | 1 => some (ptr % 256)
             | _ => none) with
      | none => .panicked
      | some addr =>
        if i < program.length then
          match patchInstr (program.getD i .halt) arg addr with
          | none => .panicked
          | some ins2 => pass2 rest labels (program.set i ins2)
        else
          pass2 rest labels program

/-- `assemble(source)`: pass 1 then pass 2. -/
def assemble (source : String) : AsmResult :=
  match pass1 (rustLines source) 0 [] [] [] with
  | .error e => .err e
  | .ok (program, labels, used) => pass2 used labels program

/-! ## Free-list bookkeeping (spec §3 invariant) -/

/-- Two `(start, length)` runs do not overlap. -/
def runsDisjoint (r1 r2 : Nat × Nat) : Prop :=
  r1.1 + r1.2 ≤ r2.1 ∨ r2.1 + r2.2 ≤ r1.1

instance (r1 r2 : Nat × Nat) : Decidable (runsDisjoint r1 r2) := by
  unfold runsDisjoint; infer_instance

/-- The free-list invariant: runs are pairwise non-overlapping, lie inside
the 65536-byte store, and are nonempty. -/
def InvFree (fl : List (Nat × Nat)) : Prop :=
  fl.Pairwise runsDisjoint ∧ ∀ r ∈ fl, r.1 + r.2 ≤ 65536 ∧ 1 ≤ r.2

instance (fl : List (Nat × Nat)) : Decidable (InvFree fl) := by
  unfold InvFree; infer_instance

/-- Total length of the free runs. -/
def totalFree (fl : List (Nat × Nat)) : Nat :=
  (fl.map Prod.snd).sum

/-- The set of working-store addresses covered by some free run. -/
def freeAddrs : List (Nat × Nat) → Finset Nat
  | [] => ∅
  | r :: rest => Finset.Ico r.1 (r.1 + r.2) ∪ freeAddrs rest

/-- The number of allocated bytes: store size minus the number of distinct
free addresses. -/
def allocatedCount (fl : List (Nat × Nat)) : Nat :=
  65536 - (freeAddrs fl).card

/-- Whether the instruction at the program counter is an `SPop`. -/
def isSPopAt (s : VMState) : Bool :=
  match s.program.get? s.pc with
  | some (.spop _ _ _) => true
  | _ => false

/-! ## Claim-side description of label definition (spec §4.2) -/

/-- Whether a source line defines the label `name`: its first token is `$`
followed by exactly `name`. -/
def definesLabel (line : String) (name : String) : Bool :=
  let tok := (splitSpaces line).headD ""
  strHeadIs tok '$' && strDrop tok 1 == name

/-- The instruction index recorded by the *last* line of `lines` that
defines `name`, with `base` the index of the first line. -/
def lastDef : List String → Nat → String → Option Nat
  | [], _, _ => none
  | line :: rest, base, name =>
    match lastDef rest (base + 1) name with
    | some i => some i
    | none => if definesLabel line name then some base else none

/-! ## Concrete machine states used as inputs to the claims -/

/-- `SCopy` probe: registers 0 and 1 both hold 1, the store holds 7 at
address 257 = `(1<<8)|1` and 42 at address 512 = `1<<(8+1)`. -/
def sC1copy : VMState :=
  { initialState [.scopy 0 1 2] with
    stack := upd (upd (fun _ => 0) 257 7) 512 42,
    registers := upd (upd (fun _ => 0) 0 1) 1 1 }

/-- `SPop` probe: same registers and store as `sC1copy`. -/
def sC1pop : VMState :=
  { initialState [.spop 0 1 2] with
    stack := upd (upd (fun _ => 0) 257 7) 512 42,
    registers := upd (upd (fun _ => 0) 0 1) 1 1 }

/-- `SRep` probe: registers 0 and 1 hold 1, register 2 holds 9. -/
def sC1rep : VMState :=
  { initialState [.srep 0 1 2] with
    registers := upd (upd (upd (fun _ => 0) 0 1) 1 1) 2 9 }

/-- `RJump16` probe: register 0 holds 1, register 1 holds 0. -/
def sC2r : VMState :=
  { initialState [.rjump16 0 1] with registers := upd (fun _ => 0) 0 1 }

/-- `SPush` probe with an exhausted free list. -/
def sC3e : VMState :=
  { initialState [.spush 0 1 2] with memMap := [] }

/-- `SPush` probe in the initial state (free list `[(0, 65536)]`). -/
def sC3n : VMState :=
  initialState [.spush 0 1 2]

/-- Execution probe for the instruction the `CMP` line assembles to:
registers 1 and 2 both hold 5. -/
def sC5 : VMState :=
  { initialState [.add 0 1 2] with
    registers := upd (upd (fun _ => 0) 1 5) 2 5 }

/-- Overflow probe for `Add`: registers 1 and 2 hold 200 and 100. -/
def sC7w : VMState :=
  { initialState [.add 0 1 2] with
    registers := upd (upd (fun _ => 0) 1 200) 2 100 }

/-- Division probe: all registers zero, so register 1 (the divisor) is 0. -/
def sC4w : VMState :=
  initialState [.div 2 0 1]

/-- A one-instruction program that pops address 0 from the initial state,
double-freeing a byte that is still on the free list. -/
def sC9pop : VMState :=
  initialState [.spop 0 0 1]

/-- `SPush` probe used to witness invariant preservation. -/
def sC9push : VMState :=
  initialState [.spush 0 1 2]

/-! ## Claim theorems -/

/-- C1: the working-store address used by `SCopy`/`SPop`/`SRep` is *not*
`(registers[h] << 8) | registers[l]`: by operator precedence the source
computes `registers[h] << (8 + registers[l])`.  With `registers[0] = 1` and
`registers[1] = 1` the code addresses cell 512, not cell 257 = `(1<<8)|1`:
`SCopy` reads the 42 stored at 512 rather than the 7 stored at 257, `SPop`
likewise, and `SRep` writes register 2 to cell 512 leaving cell 257
untouched. -/
theorem scopy_spop_srep_address_precedence_bug :
    addrCode 1 1 = 512 ∧ ((1 <<< 8) ||| 1) = 257 ∧
    (resultState (step sC1copy)).registers 2 = 42 ∧
    sC1copy.stack 257 = 7 ∧
    (resultState (step sC1pop)).registers 2 = 42 ∧
    (resultState (step sC1rep)).stack 512 = 9 ∧
    (resultState (step sC1rep)).stack 257 = 0 := by
  decide

/-- C2: `Jump16(1,0)` does not set the program counter to 256 =
`(1<<8)|0`: the source computes `1 << (8 + 0)` on `u8` (shift amount masked
to 0, so the value is 1) and then still applies the generic `pc += 1`,
leaving `pc = 2`; `RJump16` with `registers[0] = 1`, `registers[1] = 0`
behaves the same way. -/
theorem jump16_packing_and_double_increment_bug :
    jumpAddrCode 1 0 = 1 ∧ ((1 <<< 8) ||| 0) = 256 ∧
    step (initialState [.jump16 1 0]) =
      .running { initialState [.jump16 1 0] with pc := 2 } ∧
    step sC2r = .running { sC2r with pc := 2 } := by
  refine ⟨by decide, by decide, rfl, rfl⟩

/-- C3: `SPush` with a non-empty free list takes the first run
`(start, len)`, stores `registers[v]` at `store[start]`, writes
`(start >> 8) & 0xFF` into `registers[h]` and `start & 0xFF` into
`registers[l]`, and shrinks the run to `(start+1, len-1)`, removing it when
`len - 1 = 0`; with an empty free list the machine faults with
`StackExhausted`. -/
theorem spush_allocates_first_run (s : VMState) (h l v : Nat)
    (hpc : s.program.get? s.pc = some (.spush h l v)) :
    (s.memMap = [] → step s = .faulted .stackExhausted s) ∧
    (∀ start len rest, s.memMap = (start, len) :: rest → start < 65536 →
      step s = .running { s with
        stack := upd s.stack start (s.registers v),
        registers := upd (upd s.registers h ((start >>> 8) % 256)) l (start % 256),
        memMap := if len - 1 = 0 then rest else (start + 1, len - 1) :: rest,
        pc := s.pc + 1 }) := by
  constructor
  · intro hm
    unfold step
    rw [hpc, hm]
  · intro start len rest hm hlt
    unfold step
    rw [hpc, hm]
    have hif : (if 1 < len then (start + 1, len - 1) :: rest else rest) =
        (if len - 1 = 0 then rest else (start + 1, len - 1) :: rest) := by
      rcases Nat.lt_or_ge 1 len with h1 | h1
      · rw [if_pos h1, if_neg (by omega)]
      · rw [if_neg (by omega), if_pos (by omega)]
    simp only [if_pos hlt, hif]

/-- C3 witness: in the initial state an `SPush` stores register 2 at
address 0, puts the address bytes 0/0 into registers 0 and 1 and shrinks
the free run to `(1, 65535)`; with an empty free list it faults. -/
theorem spush_allocates_first_run_witness :
    step sC3e = .faulted .stackExhausted sC3e ∧
    step sC3n = .running { sC3n with
      stack := upd sC3n.stack 0 (sC3n.registers 2),
      registers := upd (upd sC3n.registers 0 ((0 : Nat) >>> 8 % 256)) 1 (0 % 256),
      memMap := if 65536 - 1 = 0 then [] else [(0 + 1, 65536 - 1)],
      pc := sC3n.pc + 1 } := by
  exact ⟨(spush_allocates_first_run sC3e 0 1 2 rfl).1 rfl,
    (spush_allocates_first_run sC3n 0 1 2 rfl).2 0 65536 [] rfl (by norm_num)⟩

/-- C4: executing `Div(d, a, b)` when `registers[b] = 0` faults with
`DivisionByZero` and leaves the whole machine state — registers and working
store included — unmodified, for every prior state. -/
theorem div_by_zero_faults_state_unchanged (s : VMState) (d a b : Nat)
    (hpc : s.program.get? s.pc = some (.div d a b))
    (hz : s.registers b = 0) :
    step s = .faulted .divisionByZero s := by
  unfold step
  rw [hpc]
  simp [hz]

/-- C4 witness: `Div r2, r0, r1` in the initial state (all registers zero)
faults with `DivisionByZero` and freezes the state. -/
theorem div_by_zero_faults_state_unchanged_witness :
    step sC4w = .faulted .divisionByZero sC4w :=
  div_by_zero_faults_state_unchanged sC4w 2 0 1 rfl rfl

/-- C5: the `CMP rd ra rb` source line does not assemble to a compare at
all — the assembler's `CMP` arm pushes `Instruction::Add`.  Executing the
emitted instruction with `registers[1] = registers[2] = 5` stores
5 + 5 = 10 into register 0, not the 1 the compare semantics (equal operands)
require. -/
theorem cmp_assembles_to_add :
    assemble "CMP r0 r1 r2" = .ok [.add 0 1 2] ∧
    (resultState (step sC5)).registers 0 = 10 := by
  constructor
  · decide
  · decide

/-- C6: the patch pass does not behave as claimed.  Patching the `Eq` value
slot — a Byte slot — hits the `panic!()` arm (`EQ r0 $L1` with `$L` defined
later panics instead of producing `Eq(0, 1)`), and a high-byte patch writes
`(addr << 8) & 0xFF`, which is always 0: with a label at instruction index
300 the high-byte patch of a `Jump16` slot writes 0 where the claimed
`(addr >> 8) & 0xFF` is 1. -/
theorem patch_pass_panics_and_zeroes_high_byte :
    assemble "EQ r0 $L1\x0a$L HALT" = .panicked ∧
    pass2 [("L", 0, 0, 0)] [("L", 300)] [.jump16 7 7] = .ok [.jump16 0 7] ∧
    (300 >>> 8) % 256 = 1 := by
  refine ⟨by decide, by decide, by decide⟩

/-- C7: `Add`, `Sub` and `Mul` always succeed and write the 8-bit result
reduced modulo 256 into the destination register (`Sub` wraps as
`a + 256 - b` for 8-bit operands); no operand values make these
instructions trap or fault. -/
theorem arithmetic_wraps_mod_256 (s : VMState) (d a b : Nat) :
    (s.program.get? s.pc = some (.add d a b) →
      step s = .running { s with
        registers := upd s.registers d ((s.registers a + s.registers b) % 256),
        pc := s.pc + 1 }) ∧
    (s.program.get? s.pc = some (.sub d a b) →
      step s = .running { s with
        registers := upd s.registers d ((s.registers a + 256 - s.registers b) % 256),
        pc := s.pc + 1 }) ∧
    (s.program.get? s.pc = some (.mul d a b) →
      step s = .running { s with
        registers := upd s.registers d ((s.registers a * s.registers b) % 256),
        pc := s.pc + 1 }) := by
  refine ⟨fun hpc => ?_, fun hpc => ?_, fun hpc => ?_⟩ <;>
    (unfold step; rw [hpc])

/-- C7 witness: adding 200 and 100 runs without fault and stores
(200 + 100) % 256 = 44. -/
theorem arithmetic_wraps_mod_256_witness :
    (resultState (step sC7w)).registers 0 = 44 := by
  have h := (arithmetic_wraps_mod_256 sC7w 0 1 2).1 rfl
  rw [h]
  decide

/-- C8: `get_value` does not restrict register tokens to the indices 0–15:
`rFF` is accepted as register 255 and `r10` as register 16 (any hex value
fitting a `u8` passes), instead of the `ParseError` the claim requires for
out-of-range indices. -/
theorem register_token_range_not_checked :
    get_value ["rFF"] 0 0 [] = .ok (.register 255, [], []) ∧
    get_value ["r10"] 0 0 [] = .ok (.register 16, [], []) := by
  exact ⟨rfl, rfl⟩

/-- Shrinking (or dropping) the first run of a free list that satisfies the
invariant preserves the invariant. -/
theorem invFree_shrink (start len : Nat) (rest : List (Nat × Nat))
    (hInv : InvFree ((start, len) :: rest)) :
    InvFree (if 1 < len then (start + 1, len - 1) :: rest else rest) := by
  rcases hInv with ⟨hp, hb⟩
  cases hp with
  | cons hd tl =>
    by_cases hlen : 1 < len
    · rw [if_pos hlen]
      refine ⟨.cons (fun x hx => ?_) tl, fun r hr => ?_⟩
      · have hdx := hd x hx
        unfold runsDisjoint at hdx ⊢
        omega
      · cases hr with
        | head =>
          have hhd := hb (start, len) (.head _)
          constructor <;> (simp only at hhd ⊢; omega)
        | tail _ hr => exact hb r (.tail _ hr)
    · rw [if_neg hlen]
      exact ⟨tl, fun r hr => hb r (.tail _ hr)⟩

/-- A run disjoint from every run of a list is disjoint from the list's
address set. -/
theorem disjoint_freeAddrs (r : Nat × Nat) (fl : List (Nat × Nat))
    (h : ∀ x ∈ fl, runsDisjoint r x) :
    Disjoint (Finset.Ico r.1 (r.1 + r.2)) (freeAddrs fl) := by
  induction fl with
  | nil => simp [freeAddrs]
  | cons x rest ih =>
    rw [freeAddrs, Finset.disjoint_union_right]
    refine ⟨?_, ih (fun y hy => h y (.tail _ hy))⟩
    have hx := h x (.head _)
    rw [Finset.disjoint_left]
    intro a ha hax
    rw [Finset.mem_Ico] at ha hax
    unfold runsDisjoint at hx
    omega

/-- For pairwise non-overlapping runs, the number of distinct free
addresses is the total free length. -/
theorem freeAddrs_card (fl : List (Nat × Nat)) (hp : fl.Pairwise runsDisjoint) :
    (freeAddrs fl).card = totalFree fl := by
  induction fl with
  | nil => simp [freeAddrs, totalFree]
  | cons r rest ih =>
    cases hp with
    | cons hd tl =>
      have hcons : totalFree (r :: rest) = r.2 + totalFree rest := by
        simp [totalFree]
      rw [freeAddrs, Finset.card_union_of_disjoint (disjoint_freeAddrs r rest hd),
        Nat.card_Ico, ih tl, hcons]
      omega

/-- In-bounds runs cover only store addresses. -/
theorem freeAddrs_subset (fl : List (Nat × Nat))
    (hb : ∀ r ∈ fl, r.1 + r.2 ≤ 65536) :
    freeAddrs fl ⊆ Finset.range 65536 := by
  induction fl with
  | nil => simp [freeAddrs]
  | cons r rest ih =>
    rw [freeAddrs]
    refine Finset.union_subset ?_ (ih fun x hx => hb x (.tail _ hx))
    intro a ha
    rw [Finset.mem_Ico] at ha
    rw [Finset.mem_range]
    have := hb r (.head _)
    omega

/-- Under the invariant, total free length plus allocated bytes is the
store size. -/
theorem invFree_count (fl : List (Nat × Nat)) (hInv : InvFree fl) :
    totalFree fl + allocatedCount fl = 65536 := by
  have hcard := freeAddrs_card fl hInv.1
  have hle : (freeAddrs fl).card ≤ 65536 := by
    have := Finset.card_le_card (freeAddrs_subset fl (fun r hr => (hInv.2 r hr).1))
    simpa using this
  unfold allocatedCount
  omega

/-- C9 counterexample: the state reached from the initial state by one
`SPop` (program `[SPop r0 r0 r1]`) has free list `[(0, 65536), (0, 1)]`,
whose runs overlap at address 0 and whose total free length is 65537 — the
claimed invariant fails in a reachable state. -/
theorem spop_breaks_free_list_invariant :
    (resultState (step sC9pop)).memMap = [(0, 65536), (0, 1)] ∧
    ¬ InvFree [(0, 65536), (0, 1)] ∧
    totalFree [(0, 65536), (0, 1)] = 65537 := by
  refine ⟨by decide, ?_, by decide⟩
  intro hInv
  cases hInv.1 with
  | cons hd _ =>
    have hdx := hd (0, 1) (.head _)
    unfold runsDisjoint at hdx
    omega

/-- C9 amended: every step executing anything other than an `SPop`
preserves the free-list invariant — runs pairwise non-overlapping,
in bounds and nonempty — and with it the accounting identity
total free length + allocated bytes = 65536.  (`SPop` itself appends
`(addr, 1)` unconditionally and can break the invariant, as the
counterexample shows.) -/
theorem non_spop_steps_preserve_free_list_invariant (s : VMState)
    (hInv : InvFree s.memMap) (hns : isSPopAt s = false) :
    InvFree (resultState (step s)).memMap ∧
    totalFree (resultState (step s)).memMap +
      allocatedCount (resultState (step s)).memMap = 65536 := by
  have hmain : InvFree (resultState (step s)).memMap := by
    cases hpc : s.program[s.pc]? with
    | none => simpa [step, hpc, resultState] using hInv
    | some instr =>
      cases instr with
      | load r v => simpa [step, hpc, resultState] using hInv
      | add d a b => simpa [step, hpc, resultState] using hInv
      | sub d a b => simpa [step, hpc, resultState] using hInv
      | mul d a b => simpa [step, hpc, resultState] using hInv
      | div d a b =>
        by_cases hz : s.registers b = 0 <;>
          simpa [step, hpc, resultState, hz] using hInv
      | cmp d a b => simpa [step, hpc, resultState] using hInv
      | spush h l v =>
        rcases hm : s.memMap with _ | ⟨⟨start, len⟩, rest⟩
        · simpa [step, hpc, hm, resultState] using hInv
        · have hb := hInv.2 (start, len) (by rw [hm]; exact List.Mem.head _)
          have hstart : start < 65536 := by omega
          have hshrink := invFree_shrink start len rest (hm ▸ hInv)
          simpa [step, hpc, hm, hstart, resultState] using hshrink
      | scopy h l d =>
        by_cases ha : addrCode (s.registers h) (s.registers l) < 65536 <;>
          simpa [step, hpc, resultState, ha] using hInv
      | spop h l d => simp [isSPopAt, hpc] at hns
      | srep h l v =>
        by_cases ha : addrCode (s.registers h) (s.registers l) < 65536 <;>
          simpa [step, hpc, resultState, ha] using hInv
      | req a b => simpa [step, hpc, resultState] using hInv
      | eq r v => simpa [step, hpc, resultState] using hInv
      | jump16 b1 b2 => simpa [step, hpc, resultState] using hInv
      | rjump16 r1 r2 => simpa [step, hpc, resultState] using hInv
      | halt => simpa [step, hpc, resultState] using hInv
  exact ⟨hmain, invFree_count _ hmain⟩

/-- C9 witness: an `SPush` from the initial state preserves the invariant
and the accounting identity. -/
theorem non_spop_steps_preserve_free_list_invariant_witness :
    InvFree (resultState (step sC9push)).memMap ∧
    totalFree (resultState (step sC9push)).memMap +
      allocatedCount (resultState (step sC9push)).memMap = 65536 :=
  non_spop_steps_preserve_free_list_invariant sC9push (by decide) (by decide)

/-- A successful `assembleLine` extends the label table with exactly the
leading `$`-token of the line (if any), newest binding first. -/
theorem assembleLine_labels (line : String) (instruction : Nat)
    (labels : List (String × Nat)) (used : List Ref)
    (ins : Instruction) (labels2 : List (String × Nat)) (used2 : List Ref)
    (hA : assembleLine line instruction labels used = .ok (ins, labels2, used2)) :
    labels2 = if strHeadIs ((splitSpaces line).headD "") '$'
      then (strDrop ((splitSpaces line).headD "") 1, instruction) :: labels
      else labels := by
  by_cases hd : strHeadIs ((splitSpaces line).headD "") '$'
  · rw [if_pos hd]
    simp only [assembleLine, hd, if_true] at hA
    rcases hrest : (splitSpaces line).tail with _ | ⟨p2, r2⟩ <;> rw [hrest] at hA <;>
      simp only [] at hA
    · rcases he : emitLine ((splitSpaces line).headD "") [] instruction used
        with e | ⟨i2, u2⟩ <;> rw [he] at hA <;> simp only [] at hA
      · exact absurd hA (by simp)
      · simp only [Except.ok.injEq, Prod.mk.injEq] at hA
        exact hA.2.1.symm
    · rcases he : emitLine p2 r2 instruction used with e | ⟨i2, u2⟩ <;> rw [he] at hA <;>
        simp only [] at hA
      · exact absurd hA (by simp)
      · simp only [Except.ok.injEq, Prod.mk.injEq] at hA
        exact hA.2.1.symm
  · rw [if_neg hd]
    rw [Bool.not_eq_true] at hd
    simp only [assembleLine, hd, Bool.false_eq_true, if_false] at hA
    rcases he : emitLine ((splitSpaces line).headD "") ((splitSpaces line).tail)
        instruction used with e | ⟨i2, u2⟩ <;> rw [he] at hA <;> simp only [] at hA
    · exact absurd hA (by simp)
    · simp only [Except.ok.injEq, Prod.mk.injEq] at hA
      exact hA.2.1.symm

/-- C10: duplicate label definitions are not an error.  In general, after a
successful pass 1 the label table resolves each name to the index recorded
by the *last* line defining it (falling back to the inherited table), so
every deferred reference — forward or backward — is patched from that last
definition; concretely, a program defining `$L` twice assembles without
error and patches the `JUMP16` low byte with the second definition's
index 2, not 1. -/
theorem duplicate_labels_last_definition_wins :
    (∀ (lines : List String) (base : Nat) (program : List Instruction)
        (labels : List (String × Nat)) (used : List Ref)
        (program2 : List Instruction) (labels2 : List (String × Nat)) (used2 : List Ref),
      pass1 lines base program labels used = .ok (program2, labels2, used2) →
      ∀ name, labelGet labels2 name =
        match lastDef lines base name with
        | some i => some i
        | none => labelGet labels name) ∧
    assemble "JUMP16 $L0 $L1\x0a$L HALT\x0a$L HALT" = .ok [.jump16 0 2, .halt, .halt] := by
  constructor
  · intro lines
    induction lines with
    | nil =>
      intro base program labels used program2 labels2 used2 hp name
      simp only [pass1, Except.ok.injEq, Prod.mk.injEq] at hp
      rw [lastDef, ← hp.2.1]
    | cons line rest ih =>
      intro base program labels used program2 labels2 used2 hp name
      simp only [pass1] at hp
      rcases hA : assembleLine line base labels used with e | ⟨ins, l2, u2⟩ <;>
        rw [hA] at hp
      · exact absurd hp (by simp)
      · have hl2 := assembleLine_labels line base labels used ins l2 u2 hA
        have hrec := ih (base + 1) (program ++ [ins]) l2 u2 program2 labels2 used2
          hp name
        rw [hrec, lastDef]
        rcases hld : lastDef rest (base + 1) name with _ | i
        · rw [hl2]
          unfold definesLabel
          by_cases hd : strHeadIs ((splitSpaces line).headD "") '$'
          · rw [if_pos hd]
            simp only [hd, Bool.true_and]
            rw [labelGet]
            split <;> rename_i hc <;> simp [hc]
          · rw [if_neg hd]
            rw [Bool.not_eq_true] at hd
            simp only [hd, Bool.false_and, Bool.false_eq_true, if_false]
        · rfl
  · decide

/-- C10 witness: assembling two lines that both define `$L` (at indices 0
and 1) leaves the label table resolving `L` to the last definition,
index 1. -/
theorem duplicate_labels_last_definition_wins_witness :
    labelGet [("L", 1), ("L", 0)] "L" = some 1 := by
  have h := duplicate_labels_last_definition_wins.1 ["$L HALT", "$L HALT"] 0 [] [] []
    [.halt, .halt] [("L", 1), ("L", 0)] [] rfl "L"
  exact h.trans (by decide)

end MysticVM
